import Mathlib

/-!
Verification of the offline music player's library and playback-queue core.

Shallow embedding of:
  * `src/src/types.ts`        — the Track record/summary data model,
  * `src/src/lib/db.ts`       — the IndexedDB gateway (tracks / deleted / favorites stores),
  * `src/unnamed/part_000`    — the App variant holding the playback-queue engine
                                (pickRandomNextId, goNext, goPrev, onEnded, playTrack,
                                seekTo, filteredTracks with filterBy),
  * `src/unnamed/part_001`    — the App variant holding import dedup, delete/restore
                                and favorite-key logic (handleImport, handleDeleteTrack,
                                setFavorite, restoreDeletedEntry).

Conventions of the embedding:
  * JS stores are modelled as association lists keyed the way IndexedDB keys them
    (`keyPath: 'id'` for tracks, `keyPath: 'key'` for deleted/favorites).
  * Binary blobs and object URLs are opaque numeric handles; `URL.createObjectURL`
    of a blob is identified with the blob handle itself (distinct blobs give
    distinct URLs).
  * JS timestamps (`Date.now()`) are threaded in as an explicit `now : Nat`.
  * `Math.random()`-derived indices are threaded in as an explicit `Nat` index;
    `Math.floor(Math.random() * pool.length)` always lands in `[0, pool.length)`,
    and the code's `pool[index] ?? null` is modelled by `pool[idx]?`.
  * Fractional JS numbers used for playback time are modelled as `ℚ`.
  * JS string falsiness (`if (!key) return`) is an explicit `= ""` test;
    optional string fields use `Option String`, where the code's truthiness test
    `track.sourceKey || fallback` checks both `none` and `some ""`.
-/

namespace MusicApp

/-- Source enum of a track (src/src/types.ts). -/
inductive Source where
  | imported
  | embedded
  | session
deriving DecidableEq, Repr

/-- Persisted track record, `TrackRecord` of src/src/types.ts.  The binary audio
payload `blob` is an opaque handle. -/
structure TrackRecord where
  id : String
  title : String
  artist : String
  album : String
  duration : ℚ
  addedAt : Nat
  favorite : Bool
  folder : String
  filename : String
  artUrl : Option String
  source : Option Source
  sourceKey : Option String
  blob : Nat
deriving DecidableEq, Repr

/-- Track summary (no payload), `TrackSummary` of src/src/types.ts. -/
structure TrackSummary where
  id : String
  title : String
  artist : String
  album : String
  duration : ℚ
  addedAt : Nat
  favorite : Bool
  folder : String
  filename : String
  artUrl : Option String
  source : Option Source
  sourceKey : Option String
deriving DecidableEq, Repr

/-- Record persisted in the `deleted` store (src/src/lib/db.ts schema). -/
structure DeletedEntry where
  key : String
  deletedAt : Nat
  title : Option String
  artist : Option String
  album : Option String
  folder : Option String
  filename : Option String
deriving DecidableEq, Repr

/-- Record persisted in the `favorites` store (src/src/lib/db.ts schema). -/
structure FavoriteEntry where
  key : String
  updatedAt : Nat
deriving DecidableEq, Repr

/-- State of the three IndexedDB object stores of `music-app-db` (version 3). -/
structure DbState where
  tracks : List TrackRecord
  deleted : List DeletedEntry
  favorites : List FavoriteEntry
deriving DecidableEq, Repr

/-- Keyed `put` of IndexedDB with `keyPath: 'id'`: overwrite the record stored
under the same id, append otherwise. -/
def putRecord (r : TrackRecord) (l : List TrackRecord) : List TrackRecord :=
  if l.any (fun x => x.id == r.id) then
    l.map (fun x => if x.id == r.id then r else x)
  else
    l ++ [r]

/-- Keyed `put` for the `deleted` store (`keyPath: 'key'`). -/
def putDeleted (e : DeletedEntry) (l : List DeletedEntry) : List DeletedEntry :=
  if l.any (fun x => x.key == e.key) then
    l.map (fun x => if x.key == e.key then e else x)
  else
    l ++ [e]

/-- Keyed `put` for the `favorites` store (`keyPath: 'key'`). -/
def putFavorite (e : FavoriteEntry) (l : List FavoriteEntry) : List FavoriteEntry :=
  if l.any (fun x => x.key == e.key) then
    l.map (fun x => if x.key == e.key then e else x)
  else
    l ++ [e]

/-- `toSummary` of src/src/lib/db.ts: drop the blob from a record. -/
def toSummary (r : TrackRecord) : TrackSummary :=
  { id := r.id, title := r.title, artist := r.artist, album := r.album
    duration := r.duration, addedAt := r.addedAt, favorite := r.favorite
    folder := r.folder, filename := r.filename, artUrl := r.artUrl
    source := r.source, sourceKey := r.sourceKey }

/-- `getAllTrackSummaries` of src/src/lib/db.ts. -/
def getAllTrackSummaries (db : DbState) : List TrackSummary :=
  db.tracks.map toSummary

/-- `getTrackRecord` of src/src/lib/db.ts (`db.get('tracks', id)`). -/
def getTrackRecord (id : String) (db : DbState) : Option TrackRecord :=
  db.tracks.find? (fun x => x.id == id)

/-- `getTrackBlob` of src/src/lib/db.ts (`track?.blob ?? null`). -/
def getTrackBlob (id : String) (db : DbState) : Option Nat :=
  (getTrackRecord id db).map (fun r => r.blob)

/-- `upsertTracks` of src/src/lib/db.ts: put each record in turn. -/
def upsertTracks (ts : List TrackRecord) (db : DbState) : DbState :=
  if ts.isEmpty then db
  else { db with tracks := ts.foldl (fun acc t => putRecord t acc) db.tracks }

/-- `updateTrack` of src/src/lib/db.ts: absent id returns `none` with the store
untouched; otherwise the updater result is put back and its summary returned. -/
def updateTrack (id : String) (updater : TrackRecord → TrackRecord) (db : DbState) :
    DbState × Option TrackSummary :=
  match db.tracks.find? (fun x => x.id == id) with
  | none => (db, none)
  | some existing =>
    let updated := updater existing
    ({ db with tracks := putRecord updated db.tracks }, some (toSummary updated))

/-- `deleteAllTracks` of src/src/lib/db.ts: `db.clear('tracks')` only. -/
def deleteAllTracks (db : DbState) : DbState :=
  { db with tracks := [] }

/-- `deleteTrack` of src/src/lib/db.ts: `db.delete('tracks', id)`. -/
def deleteTrack (id : String) (db : DbState) : DbState :=
  { db with tracks := db.tracks.filter (fun x => !(x.id == id)) }

/-- `addDeletedEntry` of src/src/lib/db.ts: no-op on a falsy key, otherwise a
keyed put with `deletedAt := Date.now()`. -/
def addDeletedEntry (now : Nat) (key : String) (title artist album folder filename : Option String)
    (db : DbState) : DbState :=
  if key = "" then db
  else
    let entry : DeletedEntry :=
      { key := key, deletedAt := now, title := title, artist := artist
        album := album, folder := folder, filename := filename }
    { db with deleted := putDeleted entry db.deleted }

/-- `getDeletedKeys` of src/src/lib/db.ts (`getAllKeys('deleted')` as a set). -/
def getDeletedKeys (db : DbState) : List String :=
  db.deleted.map (fun e => e.key)

/-- `removeDeletedKey` of src/src/lib/db.ts: no-op on a falsy key, otherwise
`db.delete('deleted', key)`. -/
def removeDeletedKey (key : String) (db : DbState) : DbState :=
  if key = "" then db
  else { db with deleted := db.deleted.filter (fun e => !(e.key == key)) }

/-- `setFavoriteKey` of src/src/lib/db.ts: no-op on a falsy key; put on
`favorite = true`, delete on `favorite = false`. -/
def setFavoriteKey (now : Nat) (key : String) (favorite : Bool) (db : DbState) : DbState :=
  if key = "" then db
  else if favorite then
    { db with favorites := putFavorite { key := key, updatedAt := now } db.favorites }
  else
    { db with favorites := db.favorites.filter (fun e => !(e.key == key)) }

/-- `getFavoriteKeys` of src/src/lib/db.ts (`getAllKeys('favorites')` as a set). -/
def getFavoriteKeys (db : DbState) : List String :=
  db.favorites.map (fun e => e.key)

/-! ### Library View Engine (part_000 `filteredTracks`) -/

/-- Active tab, `TabKey` of src/src/types.ts. -/
inductive TabKey where
  | library
  | favorites
  | albums
deriving DecidableEq, Repr

/-- Search filter field, `FilterBy` of part_000. -/
inductive FilterBy where
  | all
  | title
  | artist
  | album
  | folder
  | filename
deriving DecidableEq, Repr

/-- Derived album group (part_000 `embeddedAlbums` entries); only the member
track list is consulted by `filteredTracks`. -/
structure Album where
  folder : String
  name : String
  count : Nat
  tracks : List TrackSummary
deriving DecidableEq, Repr

/-- Model of JS `String.prototype.trim`: drop whitespace from both ends. -/
def trimChars (s : List Char) : List Char :=
  ((s.dropWhile Char.isWhitespace).reverse.dropWhile Char.isWhitespace).reverse

/-- Model of JS `String.prototype.toLowerCase` (per-character lowering; agrees
with the JS mapping on ASCII, which is what track metadata uses here). -/
def lowerChars (s : List Char) : List Char :=
  s.map Char.toLower

/-- Helper for the substring test: does `pat` start the list `hay`? -/
def leadMatch : List Char → List Char → Bool
  | [], _ => true
  | _ :: _, [] => false
  | p :: ps, h :: hs => p == h && leadMatch ps hs

/-- Model of JS `String.prototype.includes`: `pat` occurs somewhere in `hay`. -/
def hasSub (pat : List Char) : List Char → Bool
  | [] => pat.isEmpty
  | h :: hs => leadMatch pat (h :: hs) || hasSub pat hs

/-- Model of JS `Array.prototype.join(' ')` on string fields, producing the
character list of the space-joined concatenation. -/
def joinSpaceChars : List (List Char) → List Char
  | [] => []
  | [s] => s
  | s :: rest => s ++ ' ' :: joinSpaceChars rest

/-- Field list selected by part_000's `matches` closure: all five fields for
`filterBy == 'all'`, otherwise the single selected field (`[track[filterBy]]`). -/
def searchFields (fb : FilterBy) (t : TrackSummary) : List (List Char) :=
  match fb with
  | .all => [t.title.data, t.artist.data, t.album.data, t.folder.data, t.filename.data]
  | .title => [t.title.data]
  | .artist => [t.artist.data]
  | .album => [t.album.data]
  | .folder => [t.folder.data]
  | .filename => [t.filename.data]

/-- Part_000 `matches`: `fields.join(' ').toLowerCase().includes(loweredSearch)`. -/
def matchesTrack (loweredSearch : List Char) (fb : FilterBy) (t : TrackSummary) : Bool :=
  hasSub loweredSearch (lowerChars (joinSpaceChars (searchFields fb t)))

/-- Insertion step for `defaultSort`: place `t` before the first element with a
strictly smaller `addedAt`. -/
def insertByAdded (t : TrackSummary) : List TrackSummary → List TrackSummary
  | [] => [t]
  | x :: xs => if x.addedAt < t.addedAt then t :: x :: xs else x :: insertByAdded t xs

/-- `defaultSort` of part_000/part_001: sort a copy of the list by `addedAt`
descending (`(a, b) => b.addedAt - a.addedAt`).  The claims depend only on the
membership of the result, not on the order among equal timestamps. -/
def defaultSort (l : List TrackSummary) : List TrackSummary :=
  l.foldr insertByAdded []

/-- `filteredTracks` of part_000: tab restriction, then the trimmed
case-insensitive search (skipped when empty), then `defaultSort`. -/
def filteredTracks (tab : TabKey) (selectedAlbum : Option Album) (search : String)
    (filterBy : FilterBy) (tracks : List TrackSummary) : List TrackSummary :=
  let loweredSearch := lowerChars (trimChars search.data)
  if tab = .albums ∧ selectedAlbum = none then []
  else
    let base :=
      match tab, selectedAlbum with
      | .favorites, _ => tracks.filter (fun t => t.favorite)
      | .albums, some alb => alb.tracks
      | _, _ => tracks
    if loweredSearch.isEmpty then defaultSort base
    else defaultSort (base.filter (matchesTrack loweredSearch filterBy))

/-! ### Playback Queue Engine (part_000 / part_001 App state) -/

/-- Library mode of the App component (part_000/part_001 `libraryMode`). -/
inductive LibraryMode where
  | offline
  | session
deriving DecidableEq, Repr

/-- React state of the App component relevant to the playback queue engine.
`audioSrc` is the sink's attached source (`audio.src`), `currentObjectUrl` the
held object-URL resource, both opaque handles; `hasAudio` models whether the
`audioRef` element is attached. -/
structure AppState where
  tracks : List TrackSummary
  libraryMode : LibraryMode
  queueIds : List String
  currentId : Option String
  isPlaying : Bool
  currentTime : ℚ
  currentDuration : ℚ
  shuffleOn : Bool
  pendingPlay : Bool
  hasAudio : Bool
  audioSrc : Option Nat
  currentObjectUrl : Option Nat
  sessionBlobs : List (String × Nat)
deriving DecidableEq, Repr

/-- `currentIndex` memo of part_000: `-1` when no current id, otherwise
`queueIds.indexOf(currentId)` (first occurrence, `-1` when absent). -/
def currentIndexI (st : AppState) : Int :=
  match st.currentId with
  | none => -1
  | some id =>
    match st.queueIds.findIdx? (fun x => x == id) with
    | some n => (n : Int)
    | none => -1

/-- JS array indexing with a possibly negative index: negative gives undefined. -/
def getIdx (l : List String) (i : Int) : Option String :=
  if 0 ≤ i then l[i.toNat]? else none

/-- `canGoNext` of part_000: `currentIndex >= 0 && currentIndex < queueIds.length - 1`. -/
def canGoNext (st : AppState) : Bool :=
  0 ≤ currentIndexI st && currentIndexI st < (st.queueIds.length : Int) - 1

/-- `canGoPrev` of part_000: `currentIndex > 0`. -/
def canGoPrev (st : AppState) : Bool :=
  0 < currentIndexI st

/-- `pickRandomNextId` of part_000: from a non-empty queue, draw from the
members different from the current id, falling back to the whole queue when
there are none.  The random draw `Math.floor(Math.random() * pool.length)` is
the explicit index `idx`; `pool[index] ?? null` is `pool[idx]?`. -/
def pickRandomNextId (idx : Nat) (st : AppState) : Option String :=
  if st.queueIds.isEmpty then none
  else
    let candidates := st.queueIds.filter (fun id => !(st.currentId == some id))
    let pool := if 0 < candidates.length then candidates else st.queueIds
    pool[idx]?

/-- `playTrack` of part_000/part_001: snapshot the visible list's ids as the
queue, mark a pending play, select the track, request playback. -/
def playTrack (t : TrackSummary) (list : List TrackSummary) (st : AppState) : AppState :=
  { st with queueIds := list.map (fun x => x.id)
            pendingPlay := true
            currentId := some t.id
            isPlaying := true }

/-- `goNext` of part_000: shuffled pick or sequential successor; the JS
falsy test `if (!nextId) return` is a no-op on both `undefined` and `""`. -/
def goNext (idx : Nat) (st : AppState) : AppState :=
  let nextId :=
    if st.shuffleOn then pickRandomNextId idx st
    else getIdx st.queueIds (currentIndexI st + 1)
  match nextId with
  | none => st
  | some nid =>
    if nid = "" then st
    else { st with pendingPlay := st.isPlaying, currentId := some nid }

/-- `goPrev` of part_000: shuffled pick or sequential predecessor. -/
def goPrev (idx : Nat) (st : AppState) : AppState :=
  let prevId :=
    if st.shuffleOn then pickRandomNextId idx st
    else getIdx st.queueIds (currentIndexI st - 1)
  match prevId with
  | none => st
  | some pid =>
    if pid = "" then st
    else { st with pendingPlay := st.isPlaying, currentId := some pid }

/-- `onEnded` handler of part_000: like `next()`, but when no target results,
only `setIsPlaying(false)` runs (the current id is left in place). -/
def onEnded (idx : Nat) (st : AppState) : AppState :=
  if st.shuffleOn then
    match pickRandomNextId idx st with
    | some nid =>
      if nid = "" then { st with isPlaying := false }
      else { st with pendingPlay := true, currentId := some nid }
    | none => { st with isPlaying := false }
  else if canGoNext st then
    match getIdx st.queueIds (currentIndexI st + 1) with
    | some nid =>
      if nid = "" then { st with isPlaying := false }
      else { st with pendingPlay := true, currentId := some nid }
    | none => { st with isPlaying := false }
  else { st with isPlaying := false }

/-- `seekTo` of part_000/part_001/src/src/App.tsx: with an audio element
attached, assign the raw value to `audio.currentTime` and store it in the
`currentTime` state at once — there is no clamping and no wait for the sink. -/
def seekTo (value : ℚ) (st : AppState) : AppState :=
  if st.hasAudio then { st with currentTime := value } else st

/-- `clearLibrary` of part_001 (after the confirm dialog): clear the track
store, drop all session blobs and playback state, detach and release the
audio resource. -/
def clearLibrary (st : AppState) (db : DbState) : AppState × DbState :=
  ({ st with sessionBlobs := []
             tracks := []
             libraryMode := .offline
             queueIds := []
             currentId := none
             isPlaying := false
             currentTime := 0
             currentDuration := 0
             audioSrc := none
             currentObjectUrl := none },
   deleteAllTracks db)

/-- `handleDeleteTrack` of part_001 (after the confirm dialog): record a
deleted entry under the track's source key (or the synthesized
`file:folder|filename` key), delete the record (or session blob), strip the id
from the visible list and the queue, and if it was current, reset playback and
release the audio resource. -/
def handleDeleteTrack (now : Nat) (track : TrackSummary) (st : AppState) (db : DbState) :
    AppState × DbState :=
  let sourceKey :=
    match track.sourceKey with
    | some k => if k = "" then "file:" ++ track.folder ++ "|" ++ track.filename else k
    | none => "file:" ++ track.folder ++ "|" ++ track.filename
  let db1 := addDeletedEntry now sourceKey (some track.title) (some track.artist)
    (some track.album) (some track.folder) (some track.filename) db
  let stA :=
    if st.libraryMode = .session then
      { st with sessionBlobs := st.sessionBlobs.filter (fun p => !(p.1 == track.id)) }
    else st
  let db2 := if st.libraryMode = .session then db1 else deleteTrack track.id db1
  let stB := { stA with tracks := stA.tracks.filter (fun t => !(t.id == track.id))
                        queueIds := stA.queueIds.filter (fun id => !(id == track.id)) }
  let stC :=
    if st.currentId = some track.id then
      { stB with currentId := none
                 isPlaying := false
                 currentTime := 0
                 currentDuration := 0
                 audioSrc := none
                 currentObjectUrl := none }
    else stB
  (stC, db2)

/-- `restoreDeletedEntry` of part_001: remove the deleted key from the store
(the in-memory modal list is UI state and not modelled). -/
def restoreDeletedEntry (key : String) (db : DbState) : DbState :=
  removeDeletedKey key db

/-- `setFavorite` of part_001: write the favorite key store when the found
summary has a truthy source key, then persist through the Track Repository
(offline) or patch only the in-memory summary (session). -/
def setFavorite (now : Nat) (id : String) (favorite : Bool) (st : AppState) (db : DbState) :
    AppState × DbState :=
  let track := st.tracks.find? (fun t => t.id == id)
  let db1 :=
    match track with
    | some t =>
      match t.sourceKey with
      | some k => if k = "" then db else setFavoriteKey now k favorite db
      | none => db
    | none => db
  if st.libraryMode = .session then
    ({ st with tracks := st.tracks.map (fun t => if t.id == id then { t with favorite := favorite } else t) }, db1)
  else
    match updateTrack id (fun r => { r with favorite := favorite }) db1 with
    | (db2, none) => (st, db2)
    | (db2, some updated) =>
      ({ st with tracks := st.tracks.map (fun t => if t.id == id then updated else t) }, db2)

/-! ### Import pipeline (part_001 `handleImport`, lib/metadata build step) -/

/-- Input file of an import, together with the opaque Metadata Extractor's
output for it (title/artist/album/duration/art are extraction results or their
filename/folder-derived fallbacks, which the spec treats as an external
collaborator). `folder` is the `webkitRelativePath`-derived folder. -/
structure ImportFile where
  folder : String
  filename : String
  title : String
  artist : String
  album : String
  duration : ℚ
  artUrl : Option String
  blob : Nat
  isAudio : Bool
deriving DecidableEq, Repr

/-- Modelled from the spec: `buildSourceKeyFromFile` is imported by part_001
from `./lib/metadata`, whose source is not under src/.  Per spec §4.1 the
source key is "folder+filename based … stable across re-imports of the same
filesystem path", and part_001 itself synthesizes the same shape as
`file:${track.folder}|${track.filename}` in `handleDeleteTrack`. -/
def buildSourceKeyFromFile (f : ImportFile) : String :=
  "file:" ++ f.folder ++ "|" ++ f.filename

/-- Options accepted by `buildTrackFromFile` (`BuildTrackOptions` of
lib/metadata). -/
structure BuildOptions where
  id : Option String := none
  folder : Option String := none
  filename : Option String := none
  album : Option String := none
  addedAt : Option Nat := none
  favorite : Option Bool := none
  source : Option Source := none
  sourceKey : Option String := none
deriving Repr

/-- String trim returning a `String` (used for the album option fallback). -/
def trimStr (s : String) : String :=
  String.mk (trimChars s.data)

/-- `buildTrackFromFile` of lib/metadata: assemble a TrackRecord from the file
and options.  The metadata-extraction fallback chains for title/artist/duration
are the opaque extractor, carried by the `ImportFile` fields; the option
overrides and defaulting (`options?.x ?? fallback`, `options?.favorite ?? false`,
truthy album-option chain) follow the source. -/
def buildTrackFromFile (now : Nat) (freshId : String) (f : ImportFile) (o : BuildOptions) :
    TrackRecord :=
  let folder := o.folder.getD f.folder
  let filename := o.filename.getD f.filename
  let album :=
    match o.album with
    | some a => if trimStr a = "" then f.album else trimStr a
    | none => f.album
  { id := o.id.getD freshId
    title := f.title
    artist := f.artist
    album := album
    duration := f.duration
    addedAt := o.addedAt.getD now
    favorite := o.favorite.getD false
    folder := folder
    filename := filename
    artUrl := f.artUrl
    source := some (o.source.getD .imported)
    sourceKey := o.sourceKey
    blob := f.blob }

/-- Dedup data for an existing track sharing a source key (the values stored
in part_001's `existingByKey` map). -/
structure ExistingInfo where
  id : String
  addedAt : Nat
  favorite : Bool
deriving DecidableEq, Repr

/-- Overwriting insert of JS `Map.prototype.set` on an association list. -/
def setAssoc (k : String) (v : ExistingInfo) (l : List (String × ExistingInfo)) :
    List (String × ExistingInfo) :=
  if l.any (fun p => p.1 == k) then l.map (fun p => if p.1 == k then (k, v) else p)
  else l ++ [(k, v)]

/-- Lookup of JS `Map.prototype.get` on the association list. -/
def lookupAssoc (l : List (String × ExistingInfo)) (k : String) : Option ExistingInfo :=
  (l.find? (fun p => p.1 == k)).map (fun p => p.2)

/-- Part_001 `handleImport` preamble: build `existingByKey` from the current
summaries, keeping only truthy source keys. -/
def existingMap (summaries : List TrackSummary) : List (String × ExistingInfo) :=
  summaries.foldl
    (fun acc t =>
      match t.sourceKey with
      | some k =>
        if k = "" then acc
        else setAssoc k { id := t.id, addedAt := t.addedAt, favorite := t.favorite } acc
      | none => acc)
    []

/-- Session-mode import loop of part_001 `handleImport` (lines 363–387): skip
keys already seen in the batch, skip keys in the deleted set, otherwise build a
session track whose favorite bit comes from the favorite-key store or the
existing track sharing the key.  Fresh ids are drawn from the `seed` counter
(the source uses `crypto.randomUUID`). -/
def sessionBuild (now : Nat) (deletedKeys favoriteKeys : List String)
    (existing : List (String × ExistingInfo)) :
    List ImportFile → List String → Nat → List TrackRecord
  | [], _, _ => []
  | f :: rest, seen, seed =>
    let k := buildSourceKeyFromFile f
    if k ∈ seen then
      sessionBuild now deletedKeys favoriteKeys existing rest seen seed
    else if k ∈ deletedKeys then
      sessionBuild now deletedKeys favoriteKeys existing rest (k :: seen) seed
    else
      let fav := decide (k ∈ favoriteKeys) ||
        (match lookupAssoc existing k with
         | some info => info.favorite
         | none => false)
      buildTrackFromFile now ("track-" ++ toString seed) f
          { source := some .session, sourceKey := some k, favorite := some fav }
        :: sessionBuild now deletedKeys favoriteKeys existing rest (k :: seen) (seed + 1)

/-- Session branch of part_001 `handleImport`: build the session tracks, store
their blobs in the session blob map, and replace the visible track list. -/
def handleImportSession (now seed : Nat) (files : List ImportFile) (st : AppState)
    (db : DbState) : AppState :=
  if files.isEmpty then st
  else
    let deletedKeys := getDeletedKeys db
    let favoriteKeys := getFavoriteKeys db
    let existing := existingMap (getAllTrackSummaries db)
    let ts := sessionBuild now deletedKeys favoriteKeys existing files [] seed
    { st with sessionBlobs := ts.map (fun t => (t.id, t.blob))
              tracks := ts.map toSummary
              libraryMode := .session }

/-- Modelled from the spec: the offline-mode `importAudioFiles` variant that
part_001 calls with `{ deletedKeys, existingByKey, favoriteKeys }` lives in
`./lib/metadata`, which is not under src/.  Per spec §4.1 it filters audio
files, computes each file's source key, skips keys seen earlier in the batch
and keys in the DeletedEntry set, and for a key shared with an existing track
preserves that track's `favorite` and `addedAt` (and identity); the favorite
bit otherwise comes from the favorite-key store, mirroring the session loop
part_001 spells out inline. -/
def importAudioFilesOpts (now : Nat) (deletedKeys favoriteKeys : List String)
    (existing : List (String × ExistingInfo)) :
    List ImportFile → List String → Nat → List TrackRecord
  | [], _, _ => []
  | f :: rest, seen, seed =>
    if f.isAudio = false then
      importAudioFilesOpts now deletedKeys favoriteKeys existing rest seen seed
    else
      let k := buildSourceKeyFromFile f
      if k ∈ seen then
        importAudioFilesOpts now deletedKeys favoriteKeys existing rest seen seed
      else if k ∈ deletedKeys then
        importAudioFilesOpts now deletedKeys favoriteKeys existing rest (k :: seen) seed
      else
        match lookupAssoc existing k with
        | some info =>
          buildTrackFromFile now ("track-" ++ toString seed) f
              { id := some info.id, addedAt := some info.addedAt
                favorite := some (decide (k ∈ favoriteKeys) || info.favorite)
                source := some .imported, sourceKey := some k }
            :: importAudioFilesOpts now deletedKeys favoriteKeys existing rest (k :: seen) (seed + 1)
        | none =>
          buildTrackFromFile now ("track-" ++ toString seed) f
              { favorite := some (decide (k ∈ favoriteKeys))
                source := some .imported, sourceKey := some k }
            :: importAudioFilesOpts now deletedKeys favoriteKeys existing rest (k :: seen) (seed + 1)

/-- Favorite fix-up loop of part_001 `handleImport` (lines 409–413): force the
favorite flag on a built track whose truthy source key is in the favorite-key
store (`if (track.sourceKey && favoriteKeys.has(track.sourceKey))`). -/
def restoreFavoriteFlag (favoriteKeys : List String) (t : TrackRecord) : TrackRecord :=
  match t.sourceKey with
  | some k => if k ≠ "" ∧ k ∈ favoriteKeys then { t with favorite := true } else t
  | none => t

/-- Offline branch of part_001 `handleImport`: run the dedup import, force
`favorite` on tracks whose truthy source key is in the favorite-key store,
upsert, and reload the visible list from the store. -/
def handleImportOffline (now seed : Nat) (files : List ImportFile) (st : AppState)
    (db : DbState) : AppState × DbState :=
  let deletedKeys := getDeletedKeys db
  let favoriteKeys := getFavoriteKeys db
  let existing := existingMap (getAllTrackSummaries db)
  let newTracks0 := importAudioFilesOpts now deletedKeys favoriteKeys existing files [] seed
  let newTracks := newTracks0.map (restoreFavoriteFlag favoriteKeys)
  let db1 := upsertTracks newTracks db
  ({ st with tracks := getAllTrackSummaries db1, libraryMode := .offline }, db1)

/-! ### Asynchronous track loading (part_000 `loadTrackIntoAudio` effect)

`loadTrackIntoAudio(id)` suspends at `await getTrackBlob(id)` (unless the blob
is in the session map, which is synchronous); everything after the await runs
as one block when the storage read resolves.  Storage reads run in separate
IndexedDB transactions with no cross-transaction ordering guarantee, so
in-flight reads may resolve in any order: `pendingLoads` records the ids whose
reads are in flight, and `resolveLoad` delivers one of them. -/

/-- Continuation of part_000 `loadTrackIntoAudio` after the blob resolves: a
missing blob or audio element aborts; otherwise the previous object URL is
revoked, a URL for the blob is created and attached, times reset, and a pending
play starts playback (the success path of `await audio.play()`). -/
def loadComplete (blob : Option Nat) (st : AppState) : AppState :=
  match blob with
  | none => st
  | some b =>
    if st.hasAudio then
      let st1 := { st with currentObjectUrl := some b, audioSrc := some b
                           currentTime := 0, currentDuration := 0 }
      if st.pendingPlay then { st1 with isPlaying := true, pendingPlay := false }
      else st1
    else st

/-- App state together with the storage reads currently in flight. -/
structure PlayerWorld where
  app : AppState
  db : DbState
  pendingLoads : List String
deriving DecidableEq, Repr

/-- Lookup in the session blob map (`sessionBlobsRef.current.get(id)`). -/
def lookupSession (l : List (String × Nat)) (id : String) : Option Nat :=
  (l.find? (fun p => p.1 == id)).map (fun p => p.2)

/-- Start of `loadTrackIntoAudio(id)`: a session blob completes synchronously,
otherwise the `getTrackBlob` read is put in flight. -/
def startLoad (id : String) (w : PlayerWorld) : PlayerWorld :=
  match lookupSession w.app.sessionBlobs id with
  | some b => { w with app := loadComplete (some b) w.app }
  | none => { w with pendingLoads := w.pendingLoads ++ [id] }

/-- `playTrack` followed by the `[currentId]` effect firing
`loadTrackIntoAudio(currentId)` (the effect re-runs because the current id
changed to the played track's id). -/
def playTrackW (t : TrackSummary) (list : List TrackSummary) (w : PlayerWorld) : PlayerWorld :=
  startLoad t.id { w with app := playTrack t list w.app }

/-- Resolution of one in-flight `getTrackBlob(id)` read: the continuation of
`loadTrackIntoAudio` runs on the state as of resolution time.  No part of the
code compares `id` against the current selection. -/
def resolveLoad (id : String) (w : PlayerWorld) : PlayerWorld :=
  if id ∈ w.pendingLoads then
    { w with pendingLoads := w.pendingLoads.erase id
             app := loadComplete (getTrackBlob id w.db) w.app }
  else w

/-! ### Derived notions and concrete fixtures -/

/-- Single field selected by a non-`all` filter (`track[filterBy]`); the `all`
case is unused and returns the empty string. -/
def fieldOf (fb : FilterBy) (t : TrackSummary) : String :=
  match fb with
  | .all => ""
  | .title => t.title
  | .artist => t.artist
  | .album => t.album
  | .folder => t.folder
  | .filename => t.filename

/-- Queue invariant of spec §3: a non-null current id is a member of the queue. -/
def QueueInv (st : AppState) : Prop :=
  ∀ id, st.currentId = some id → id ∈ st.queueIds

/-- Fixture record used by the concrete witnesses. -/
def exRec (id : String) (blob added : Nat) (fav : Bool) : TrackRecord :=
  { id := id, title := "Title " ++ id, artist := "Artist", album := "Album"
    duration := 10, addedAt := added, favorite := fav, folder := "Music"
    filename := id ++ ".mp3", artUrl := none, source := some .imported
    sourceKey := some ("file:Music|" ++ id ++ ".mp3"), blob := blob }

/-- Fixture store holding two tracks `x` and `y`. -/
def exDb : DbState :=
  { tracks := [exRec "x" 1 5 false, exRec "y" 2 6 false], deleted := [], favorites := [] }

/-- Fixture app state over `exDb` in offline mode with an attached audio element. -/
def exState : AppState :=
  { tracks := getAllTrackSummaries exDb, libraryMode := .offline, queueIds := []
    currentId := none, isPlaying := false, currentTime := 0, currentDuration := 10
    shuffleOn := false, pendingPlay := false, hasAudio := true, audioSrc := none
    currentObjectUrl := none, sessionBlobs := [] }

/-- Fixture queue `[a, b, c]` with `b` current, not shuffled, playing. -/
def exQueueState : AppState :=
  { exState with queueIds := ["a", "b", "c"], currentId := some "b", isPlaying := true }

/-- Fixture single-element queue with the current id as its only member, shuffled. -/
def exSingleQueue : AppState :=
  { exState with queueIds := ["b"], currentId := some "b", shuffleOn := true }

/-- Fixture world for the concurrent-load trace. -/
def exWorld : PlayerWorld :=
  { app := exState, db := exDb, pendingLoads := [] }

/-- Summary of fixture track `x`. -/
def exSumX : TrackSummary := toSummary (exRec "x" 1 5 false)

/-- Summary of fixture track `y`. -/
def exSumY : TrackSummary := toSummary (exRec "y" 2 6 false)

/-- Fixture import file whose source key is `file:Music|x.mp3`. -/
def exFile : ImportFile :=
  { folder := "Music", filename := "x.mp3", title := "Title x", artist := "Artist"
    album := "Album", duration := 10, artUrl := none, blob := 9, isAudio := true }

/-- Fixture deleted entry suppressing `file:Music|x.mp3`. -/
def exDeletedEntry : DeletedEntry :=
  { key := "file:Music|x.mp3", deletedAt := 0, title := none, artist := none
    album := none, folder := none, filename := none }

/-- Fixture store with the key of `exFile` in the deleted set. -/
def exDbDeleted : DbState :=
  { exDb with deleted := [exDeletedEntry] }

/-- Fixture queue `[a, b, c]` with the last element current. -/
def exEndState : AppState :=
  { exState with queueIds := ["a", "b", "c"], currentId := some "c", isPlaying := true }

/-- Summary of a fixture track with id `b` (member of the fixture queue). -/
def exSumB : TrackSummary := toSummary (exRec "b" 3 7 false)

/-! ## Shared lemmas about the store operations -/

theorem mem_putRecord {x r : TrackRecord} {l : List TrackRecord}
    (h : x ∈ putRecord r l) : x = r ∨ x ∈ l := by
  unfold putRecord at h
  split at h
  · obtain ⟨a, ha, hax⟩ := List.mem_map.mp h
    by_cases hid : a.id == r.id
    · simp [hid] at hax
      exact Or.inl hax.symm
    · simp [hid] at hax
      exact Or.inr (hax ▸ ha)
  · rcases List.mem_append.mp h with h1 | h1
    · exact Or.inr h1
    · exact Or.inl (List.mem_singleton.mp h1)

theorem self_mem_putRecord (r : TrackRecord) (l : List TrackRecord) :
    r ∈ putRecord r l := by
  unfold putRecord
  split
  · rename_i h
    obtain ⟨a, ha, hid⟩ := List.any_eq_true.mp h
    exact List.mem_map.mpr ⟨a, ha, by simp [hid]⟩
  · simp

theorem mem_foldl_putRecord {x : TrackRecord} :
    ∀ (ts : List TrackRecord) (init : List TrackRecord),
      x ∈ ts.foldl (fun acc t => putRecord t acc) init → x ∈ init ∨ x ∈ ts := by
  intro ts
  induction ts with
  | nil => intro init h; exact Or.inl h
  | cons t rest ih =>
    intro init h
    rcases ih (putRecord t init) h with h1 | h1
    · rcases mem_putRecord h1 with h2 | h2
      · exact Or.inr (h2 ▸ List.mem_cons_self t rest)
      · exact Or.inl h2
    · exact Or.inr (List.mem_cons_of_mem t h1)

theorem self_mem_foldl_putRecord (t : TrackRecord) :
    ∀ (ts : List TrackRecord) (init : List TrackRecord),
      t ∈ init → t.id ∉ ts.map (fun r => r.id) → t ∈ ts.foldl (fun acc t => putRecord t acc) init := by
  intro ts
  induction ts with
  | nil => intro init h _; exact h
  | cons u rest ih =>
    intro init h hid
    simp only [List.map_cons, List.mem_cons] at hid
    push_neg at hid
    refine ih (putRecord u init) ?_ hid.2
    unfold putRecord
    split
    · refine List.mem_map.mpr ⟨t, h, ?_⟩
      have : (t.id == u.id) = false := by
        exact beq_false_of_ne hid.1
      simp [this]
    · exact List.mem_append_left _ h

theorem mem_upsertTracks {x : TrackRecord} {ts : List TrackRecord} {db : DbState}
    (h : x ∈ (upsertTracks ts db).tracks) : x ∈ db.tracks ∨ x ∈ ts := by
  unfold upsertTracks at h
  split at h
  · exact Or.inl h
  · exact mem_foldl_putRecord ts db.tracks h

theorem upsertTracks_deleted (ts : List TrackRecord) (db : DbState) :
    (upsertTracks ts db).deleted = db.deleted := by
  unfold upsertTracks
  split <;> rfl

theorem upsertTracks_favorites (ts : List TrackRecord) (db : DbState) :
    (upsertTracks ts db).favorites = db.favorites := by
  unfold upsertTracks
  split <;> rfl

theorem self_mem_putFavorite (e : FavoriteEntry) (l : List FavoriteEntry) :
    e ∈ putFavorite e l := by
  unfold putFavorite
  split
  · rename_i h
    obtain ⟨a, ha, hid⟩ := List.any_eq_true.mp h
    exact List.mem_map.mpr ⟨a, ha, by simp [hid]⟩
  · simp

theorem setFavoriteKey_deleted (now : Nat) (k : String) (b : Bool) (db : DbState) :
    (setFavoriteKey now k b db).deleted = db.deleted := by
  unfold setFavoriteKey
  split
  · rfl
  · split <;> rfl

theorem setFavoriteKey_tracks (now : Nat) (k : String) (b : Bool) (db : DbState) :
    (setFavoriteKey now k b db).tracks = db.tracks := by
  unfold setFavoriteKey
  split
  · rfl
  · split <;> rfl

theorem updateTrack_deleted (id : String) (f : TrackRecord → TrackRecord) (db : DbState) :
    ((updateTrack id f db).1).deleted = db.deleted := by
  unfold updateTrack
  split <;> rfl

theorem updateTrack_favorites (id : String) (f : TrackRecord → TrackRecord) (db : DbState) :
    ((updateTrack id f db).1).favorites = db.favorites := by
  unfold updateTrack
  split <;> rfl

theorem not_mem_getDeletedKeys_remove {k : String} (db : DbState) (hk : k ≠ "") :
    k ∉ getDeletedKeys (removeDeletedKey k db) := by
  intro hmem
  unfold removeDeletedKey at hmem
  rw [if_neg hk] at hmem
  unfold getDeletedKeys at hmem
  obtain ⟨e, he, hek⟩ := List.mem_map.mp hmem
  have := List.mem_filter.mp he
  simp [hek] at this

/-! ## Claim theorems -/

/-- C9: `update(id, mutation)` on an absent id returns the not-found signal
(`null`) and leaves the track store completely unchanged; on a present id it
applies the pure transformation to the stored record, persists the result, and
returns the new summary of the updated record. -/
theorem c9_updateTrack_not_found_silent (id : String) (f : TrackRecord → TrackRecord)
    (db : DbState) :
    (getTrackRecord id db = none → updateTrack id f db = (db, none))
    ∧ (∀ r, getTrackRecord id db = some r →
        (updateTrack id f db).2 = some (toSummary (f r))
        ∧ (updateTrack id f db).1 = { db with tracks := putRecord (f r) db.tracks }
        ∧ toSummary (f r) ∈ getAllTrackSummaries (updateTrack id f db).1) := by
  constructor
  · intro h
    unfold getTrackRecord at h
    unfold updateTrack
    rw [h]
  · intro r h
    unfold getTrackRecord at h
    unfold updateTrack
    rw [h]
    refine ⟨rfl, rfl, ?_⟩
    exact List.mem_map.mpr ⟨f r, self_mem_putRecord (f r) db.tracks, rfl⟩

/-- C9 witness: on the concrete store, an absent id is a silent no-op and a
present id yields the updated summary. -/
theorem c9_witness :
    (updateTrack "zz" (fun r => { r with favorite := true }) exDb = (exDb, none))
    ∧ ((updateTrack "x" (fun r => { r with favorite := true }) exDb).2
        = some (toSummary { exRec "x" 1 5 false with favorite := true })) := by
  refine ⟨?_, ?_⟩
  · exact (c9_updateTrack_not_found_silent "zz" (fun r => { r with favorite := true }) exDb).1
      (by decide)
  · exact ((c9_updateTrack_not_found_silent "x" (fun r => { r with favorite := true }) exDb).2
      (exRec "x" 1 5 false) (by decide)).1

/-- C4 counterexample: `seekTo` does not clamp — on a state with an attached
audio element and duration 10, a requested position of `-1` is stored as `-1`
(the claim requires `0`), and `99` is stored as `99` (the claim requires `10`). -/
theorem c4_counterexample :
    (seekTo (-1) exState).currentTime = -1
    ∧ ¬ (seekTo (-1) exState).currentTime = 0
    ∧ exState.currentDuration = 10
    ∧ (seekTo 99 exState).currentTime = 99
    ∧ ¬ (seekTo 99 exState).currentTime = 10 := by
  refine ⟨rfl, by decide, rfl, rfl, by decide⟩

/-- C4 (amended): `seek(position)` updates the stored playback position to the
requested value immediately, without waiting for the audio sink to confirm and
without clamping — out-of-range positions are stored unchanged. -/
theorem c4_seekTo_stores_raw_immediately (v : ℚ) (st : AppState) (h : st.hasAudio = true) :
    seekTo v st = { st with currentTime := v } := by
  unfold seekTo
  rw [if_pos h]

/-- C4 witness: the amended statement evaluated on the concrete state. -/
theorem c4_witness :
    exState.hasAudio = true
    ∧ seekTo 5 exState = { exState with currentTime := 5 } :=
  ⟨rfl, c4_seekTo_stores_raw_immediately 5 exState rfl⟩

/-- C3: the code has no guard keying the asynchronous load by the requested id.
After `play(x)` then `play(y)`, if y's storage read resolves first and x's
read resolves last, the final state has `currentId = y` but the audio sink
attached to x's binary (blob handle 1), contradicting the claim that the sink
is never attached to the superseded track's binary. -/
theorem c3_stale_load_overwrites_newer_selection :
    (resolveLoad "x" (resolveLoad "y"
        (playTrackW exSumY [exSumX, exSumY]
          (playTrackW exSumX [exSumX, exSumY] exWorld)))).app.currentId = some "y"
    ∧ (resolveLoad "x" (resolveLoad "y"
        (playTrackW exSumY [exSumX, exSumY]
          (playTrackW exSumX [exSumX, exSumY] exWorld)))).app.audioSrc = some 1
    ∧ getTrackBlob "x" exDb = some 1
    ∧ getTrackBlob "y" exDb = some 2 := by
  refine ⟨by decide, by decide, by decide, by decide⟩

theorem pickRandomNextId_mem {idx : Nat} {st : AppState} {y : String}
    (h : pickRandomNextId idx st = some y) : y ∈ st.queueIds := by
  simp only [pickRandomNextId] at h
  split at h
  · cases h
  · split at h
    · exact (List.mem_filter.mp (List.getElem?_mem h)).1
    · exact List.getElem?_mem h

theorem pickRandomNextId_not_current {idx : Nat} {st : AppState} {y : String}
    (hother : ∃ z ∈ st.queueIds, st.currentId ≠ some z)
    (h : pickRandomNextId idx st = some y) : st.currentId ≠ some y := by
  obtain ⟨z, hz, hcz⟩ := hother
  have hzc : z ∈ st.queueIds.filter (fun id => !(st.currentId == some id)) :=
    List.mem_filter.mpr ⟨hz, by simpa using hcz⟩
  have hpos : 0 < (st.queueIds.filter (fun id => !(st.currentId == some id))).length :=
    List.length_pos.mpr (List.ne_nil_of_mem hzc)
  simp only [pickRandomNextId] at h
  split at h
  · cases h
  · have hmem := (List.mem_filter.mp (List.getElem?_mem h)).2
    simpa using hmem

theorem getIdx_mem {l : List String} {i : Int} {y : String} (h : getIdx l i = some y) :
    y ∈ l := by
  unfold getIdx at h
  split at h
  · exact List.getElem?_mem h
  · cases h

theorem goNext_cases (idx : Nat) (st : AppState) :
    goNext idx st = st ∨
      ∃ nid, nid ∈ st.queueIds ∧
        goNext idx st = { st with pendingPlay := st.isPlaying, currentId := some nid } := by
  cases hs : st.shuffleOn with
  | true =>
    cases hp : pickRandomNextId idx st with
    | none => exact Or.inl (by simp [goNext, hs, hp])
    | some nid =>
      by_cases hnid : nid = ""
      · exact Or.inl (by simp [goNext, hs, hp, hnid])
      · exact Or.inr ⟨nid, pickRandomNextId_mem hp, by simp [goNext, hs, hp, hnid]⟩
  | false =>
    cases hp : getIdx st.queueIds (currentIndexI st + 1) with
    | none => exact Or.inl (by simp [goNext, hs, hp])
    | some nid =>
      by_cases hnid : nid = ""
      · exact Or.inl (by simp [goNext, hs, hp, hnid])
      · exact Or.inr ⟨nid, getIdx_mem hp, by simp [goNext, hs, hp, hnid]⟩

theorem goPrev_cases (idx : Nat) (st : AppState) :
    goPrev idx st = st ∨
      ∃ pid, pid ∈ st.queueIds ∧
        goPrev idx st = { st with pendingPlay := st.isPlaying, currentId := some pid } := by
  cases hs : st.shuffleOn with
  | true =>
    cases hp : pickRandomNextId idx st with
    | none => exact Or.inl (by simp [goPrev, hs, hp])
    | some pid =>
      by_cases hpid : pid = ""
      · exact Or.inl (by simp [goPrev, hs, hp, hpid])
      · exact Or.inr ⟨pid, pickRandomNextId_mem hp, by simp [goPrev, hs, hp, hpid]⟩
  | false =>
    cases hp : getIdx st.queueIds (currentIndexI st - 1) with
    | none => exact Or.inl (by simp [goPrev, hs, hp])
    | some pid =>
      by_cases hpid : pid = ""
      · exact Or.inl (by simp [goPrev, hs, hp, hpid])
      · exact Or.inr ⟨pid, getIdx_mem hp, by simp [goPrev, hs, hp, hpid]⟩

/-- C5: with shuffle on, `next()`/`prev()` pick from the queue excluding the
current id whenever another member exists, and a single-element queue may pick
the current id again; with shuffle off they move to `currentIndex ± 1` in queue
order and are a no-op at either boundary. -/
theorem c5_next_prev_semantics (idx : Nat) (st : AppState) :
    ((∃ z ∈ st.queueIds, st.currentId ≠ some z) →
      ∀ y, pickRandomNextId idx st = some y → y ∈ st.queueIds ∧ st.currentId ≠ some y)
    ∧ (∀ a, st.queueIds = [a] → st.currentId = some a → pickRandomNextId 0 st = some a)
    ∧ (st.shuffleOn = true → ∀ y, pickRandomNextId idx st = some y → y ≠ "" →
        (goNext idx st).currentId = some y ∧ (goPrev idx st).currentId = some y)
    ∧ (st.shuffleOn = false →
        (∀ nid, getIdx st.queueIds (currentIndexI st + 1) = some nid → nid ≠ "" →
          (goNext idx st).currentId = some nid ∧ (goNext idx st).queueIds = st.queueIds)
        ∧ (getIdx st.queueIds (currentIndexI st + 1) = none → goNext idx st = st)
        ∧ (∀ pid, getIdx st.queueIds (currentIndexI st - 1) = some pid → pid ≠ "" →
          (goPrev idx st).currentId = some pid ∧ (goPrev idx st).queueIds = st.queueIds)
        ∧ (getIdx st.queueIds (currentIndexI st - 1) = none → goPrev idx st = st)) := by
  refine ⟨?_, ?_, ?_, ?_⟩
  · intro hother y hy
    exact ⟨pickRandomNextId_mem hy, pickRandomNextId_not_current hother hy⟩
  · intro a hq hc
    simp [pickRandomNextId, hq, hc]
  · intro hs y hy hne
    constructor
    · simp [goNext, hs, hy, hne]
    · simp [goPrev, hs, hy, hne]
  · intro hs
    refine ⟨?_, ?_, ?_, ?_⟩
    · intro nid hni hne
      constructor
      · simp [goNext, hs, hni, hne]
      · simp [goNext, hs, hni, hne]
    · intro hni
      simp [goNext, hs, hni]
    · intro pid hpi hne
      constructor
      · simp [goPrev, hs, hpi, hne]
      · simp [goPrev, hs, hpi, hne]
    · intro hpi
      simp [goPrev, hs, hpi]

/-- C5 witness: on the queue `[a, b, c]` with current `b` and shuffle off,
`next()` yields `c` and a further `next()` is a no-op; `prev()` at the head is
a no-op; a shuffled single-element queue picks the current id again. -/
theorem c5_witness :
    ((goNext 0 exQueueState).currentId = some "c"
      ∧ (goNext 0 exQueueState).queueIds = exQueueState.queueIds)
    ∧ goNext 0 (goNext 0 exQueueState) = goNext 0 exQueueState
    ∧ goPrev 0 { exQueueState with currentId := some "a" }
        = { exQueueState with currentId := some "a" }
    ∧ pickRandomNextId 0 exSingleQueue = some "b" := by
  refine ⟨?_, ?_, ?_, ?_⟩
  · exact ((c5_next_prev_semantics 0 exQueueState).2.2.2 (by decide)).1 "c" (by decide)
      (by decide)
  · exact ((c5_next_prev_semantics 0 (goNext 0 exQueueState)).2.2.2 (by decide)).2.1
      (by decide)
  · exact ((c5_next_prev_semantics 0 { exQueueState with currentId := some "a" }).2.2.2
      (by decide)).2.2.2 (by decide)
  · exact (c5_next_prev_semantics 0 exSingleQueue).2.1 "b" rfl rfl

/-- C6: the end-of-track handler behaves like `next()` — a successor (shuffled
pick or sequential successor) becomes current with playback pending; when the
non-shuffled queue is exhausted only `isPlaying` is cleared, the current id is
left in place and no earlier queue position is selected. -/
theorem c6_onEnded_advances_or_stops (idx : Nat) (st : AppState) :
    (st.shuffleOn = false → canGoNext st = false →
      onEnded idx st = { st with isPlaying := false })
    ∧ (st.shuffleOn = false → canGoNext st = true →
        ∀ nid, getIdx st.queueIds (currentIndexI st + 1) = some nid → nid ≠ "" →
          onEnded idx st = { st with pendingPlay := true, currentId := some nid })
    ∧ (st.shuffleOn = true → ∀ nid, pickRandomNextId idx st = some nid → nid ≠ "" →
        onEnded idx st = { st with pendingPlay := true, currentId := some nid })
    ∧ (st.shuffleOn = true → pickRandomNextId idx st = none →
        onEnded idx st = { st with isPlaying := false }) := by
  refine ⟨?_, ?_, ?_, ?_⟩
  · intro hs hc
    simp [onEnded, hs, hc]
  · intro hs hc nid hni hne
    simp [onEnded, hs, hc, hni, hne]
  · intro hs nid hni hne
    simp [onEnded, hs, hni, hne]
  · intro hs hni
    simp [onEnded, hs, hni]

/-- C6 witness: on `[a, b, c]` with current `b` the handler advances to `c`
with playback pending; with current `c` (queue exhausted) it only clears
`isPlaying`, leaving the current id in place. -/
theorem c6_witness :
    onEnded 0 exQueueState = { exQueueState with pendingPlay := true, currentId := some "c" }
    ∧ onEnded 0 exEndState = { exEndState with isPlaying := false }
    ∧ (onEnded 0 exEndState).currentId = some "c" := by
  refine ⟨?_, ?_, ?_⟩
  · exact (c6_onEnded_advances_or_stops 0 exQueueState).2.1 rfl (by decide) "c" (by decide)
      (by decide)
  · exact (c6_onEnded_advances_or_stops 0 exEndState).1 rfl (by decide)
  · have h := (c6_onEnded_advances_or_stops 0 exEndState).1 rfl (by decide)
    rw [h]
    rfl

/-- C8: every playback-state operation preserves membership of the non-null
current id in the queue: `play` with a track of the snapshotted list, `next`
and `prev`, deleting a track (which also strips the id from the queue and, if
it was current, resets to idle with the audio resource released), and clearing
the library (which empties both queue and current id). -/
theorem c8_current_in_queue_invariant (idx now : Nat) (t : TrackSummary)
    (list : List TrackSummary) (st : AppState) (db : DbState) :
    (t ∈ list → QueueInv (playTrack t list st))
    ∧ (QueueInv st → QueueInv (goNext idx st))
    ∧ (QueueInv st → QueueInv (goPrev idx st))
    ∧ (QueueInv st → QueueInv (handleDeleteTrack now t st db).1)
    ∧ t.id ∉ ((handleDeleteTrack now t st db).1).queueIds
    ∧ (st.currentId = some t.id →
        ((handleDeleteTrack now t st db).1.currentId = none
          ∧ (handleDeleteTrack now t st db).1.isPlaying = false
          ∧ (handleDeleteTrack now t st db).1.currentObjectUrl = none
          ∧ (handleDeleteTrack now t st db).1.audioSrc = none))
    ∧ ((clearLibrary st db).1.queueIds = [] ∧ (clearLibrary st db).1.currentId = none
        ∧ QueueInv (clearLibrary st db).1) := by
  refine ⟨?_, ?_, ?_, ?_, ?_, ?_, ?_⟩
  · intro ht id hid
    simp only [playTrack] at hid ⊢
    cases hid
    exact List.mem_map.mpr ⟨t, ht, rfl⟩
  · intro hInv
    rcases goNext_cases idx st with h | ⟨nid, hnid, h⟩
    · rw [h]; exact hInv
    · intro id hid
      rw [h] at hid ⊢
      cases hid
      exact hnid
  · intro hInv
    rcases goPrev_cases idx st with h | ⟨pid, hpid, h⟩
    · rw [h]; exact hInv
    · intro id hid
      rw [h] at hid ⊢
      cases hid
      exact hpid
  · intro hInv
    by_cases hc : st.currentId = some t.id
    · by_cases hm : st.libraryMode = .session
      · intro id hid
        simp [handleDeleteTrack, hc, hm] at hid
      · intro id hid
        simp [handleDeleteTrack, hc, hm] at hid
    · by_cases hm : st.libraryMode = .session
      · intro id hid
        simp [handleDeleteTrack, hc, hm] at hid ⊢
        exact ⟨hInv id hid, fun he => hc (he ▸ hid)⟩
      · intro id hid
        simp [handleDeleteTrack, hc, hm] at hid ⊢
        exact ⟨hInv id hid, fun he => hc (he ▸ hid)⟩
  · intro hmem
    by_cases hc : st.currentId = some t.id
    all_goals by_cases hm : st.libraryMode = .session
    all_goals simp [handleDeleteTrack, hc, hm] at hmem
  · intro hc
    by_cases hm : st.libraryMode = .session
    · simp [handleDeleteTrack, hc, hm]
    · simp [handleDeleteTrack, hc, hm]
  · refine ⟨rfl, rfl, ?_⟩
    intro id hid
    cases hid

/-- C8 witness: the invariant checked on the concrete fixtures, including the
deletion of the current track `b` and a library clear. -/
theorem c8_witness :
    QueueInv (playTrack exSumX [exSumX, exSumY] exState)
    ∧ QueueInv (goNext 0 exQueueState)
    ∧ QueueInv (handleDeleteTrack 9 exSumB exQueueState exDb).1
    ∧ "b" ∉ ((handleDeleteTrack 9 exSumB exQueueState exDb).1).queueIds
    ∧ (handleDeleteTrack 9 exSumB exQueueState exDb).1.currentId = none
    ∧ (handleDeleteTrack 9 exSumB exQueueState exDb).1.currentObjectUrl = none := by
  have h := c8_current_in_queue_invariant 0 9 exSumB [exSumX, exSumY] exQueueState exDb
  have hx := c8_current_in_queue_invariant 0 9 exSumX [exSumX, exSumY] exState exDb
  refine ⟨hx.1 (by decide), ?_, ?_, ?_, ?_, ?_⟩
  · exact h.2.1 (by intro id hid; cases hid; decide)
  · exact h.2.2.2.1 (by intro id hid; cases hid; decide)
  · have := h.2.2.2.2.1
    simpa [exSumB, exRec, toSummary] using this
  · exact (h.2.2.2.2.2.1 (by decide)).1
  · exact (h.2.2.2.2.2.1 (by decide)).2.2.1

theorem hasSub_nil_pat (hay : List Char) : hasSub [] hay = true := by
  cases hay with
  | nil => rfl
  | cons x xs => simp [hasSub, leadMatch]

theorem leadMatch_append {pat : List Char} (b : List Char) :
    ∀ {a : List Char}, leadMatch pat a = true → leadMatch pat (a ++ b) = true := by
  induction pat with
  | nil => intro a _; simp [leadMatch]
  | cons p ps ih =>
    intro a h
    cases a with
    | nil => simp [leadMatch] at h
    | cons x xs =>
      simp only [leadMatch, Bool.and_eq_true] at h
      simp only [List.cons_append, leadMatch, Bool.and_eq_true]
      exact ⟨h.1, ih h.2⟩

theorem hasSub_of_leadMatch {pat hay : List Char} (h : leadMatch pat hay = true) :
    hasSub pat hay = true := by
  cases hay with
  | nil =>
    cases pat with
    | nil => rfl
    | cons p ps => simp [leadMatch] at h
  | cons x xs => simp [hasSub, h]

theorem hasSub_append_left {pat : List Char} (b : List Char) :
    ∀ {a : List Char}, hasSub pat a = true → hasSub pat (a ++ b) = true := by
  intro a
  induction a with
  | nil =>
    intro h
    have hp : pat = [] := by
      cases pat with
      | nil => rfl
      | cons p ps => simp [hasSub] at h
    subst hp
    exact hasSub_nil_pat b
  | cons x xs ih =>
    intro h
    simp only [hasSub, Bool.or_eq_true] at h
    rcases h with h | h
    · simp only [List.cons_append, hasSub, Bool.or_eq_true]
      exact Or.inl (leadMatch_append b h)
    · simp only [List.cons_append, hasSub, Bool.or_eq_true]
      exact Or.inr (ih h)

theorem mem_insertByAdded {x t : TrackSummary} {l : List TrackSummary} :
    x ∈ insertByAdded t l ↔ x = t ∨ x ∈ l := by
  induction l with
  | nil => simp [insertByAdded]
  | cons a as ih =>
    simp only [insertByAdded]
    split
    · simp [List.mem_cons]
    · rw [List.mem_cons, ih, List.mem_cons]
      tauto

theorem mem_defaultSort {x : TrackSummary} {l : List TrackSummary} :
    x ∈ defaultSort l ↔ x ∈ l := by
  induction l with
  | nil => simp [defaultSort]
  | cons a as ih =>
    show x ∈ insertByAdded a (defaultSort as) ↔ _
    rw [mem_insertByAdded, ih, List.mem_cons]

theorem searchFields_single {fb : FilterBy} (t : TrackSummary) (h : fb ≠ .all) :
    searchFields fb t = [(fieldOf fb t).data] := by
  cases fb
  · exact absurd rfl h
  all_goals rfl

theorem matchesTrack_single {ls : List Char} {fb : FilterBy} (t : TrackSummary)
    (h : fb ≠ .all) :
    matchesTrack ls fb t = hasSub ls (lowerChars (fieldOf fb t).data) := by
  unfold matchesTrack
  rw [searchFields_single t h]
  rfl

theorem filteredTracks_library_no_search {s : String} (hb : trimChars s.data = [])
    (fb : FilterBy) (tracks : List TrackSummary) :
    filteredTracks .library none s fb tracks = defaultSort tracks := by
  simp [filteredTracks, hb, lowerChars]

theorem mem_filteredTracks_library {s : String} {fb : FilterBy}
    {tracks : List TrackSummary} {t : TrackSummary}
    (hne : lowerChars (trimChars s.data) ≠ []) :
    t ∈ filteredTracks .library none s fb tracks ↔
      t ∈ tracks ∧ matchesTrack (lowerChars (trimChars s.data)) fb t = true := by
  have hie : (lowerChars (trimChars s.data)).isEmpty = false := by
    cases hl : lowerChars (trimChars s.data) with
    | nil => exact absurd hl hne
    | cons c cs => rfl
  simp [filteredTracks, hie, mem_defaultSort, List.mem_filter]

/-- C7: search matching is a case-insensitive substring test — against the
space-joined concatenation of the five fields for `filterBy = all`, against
the single selected field otherwise; an empty or whitespace-only search
applies no filtering.  A search string occurring in the title includes the
track under `all` or `title`, and excludes it under another field that does
not contain it. -/
theorem c7_search_filter_semantics (tracks : List TrackSummary) (t : TrackSummary)
    (s : String) (hmem : t ∈ tracks) :
    (∀ s2 : String, trimChars s2.data = [] → ∀ fb,
      filteredTracks .library none s2 fb tracks = defaultSort tracks
      ∧ t ∈ filteredTracks .library none s2 fb tracks)
    ∧ (trimChars s.data = s.data →
        hasSub (lowerChars s.data) (lowerChars t.title.data) = true →
        t ∈ filteredTracks .library none s .all tracks
        ∧ t ∈ filteredTracks .library none s .title tracks)
    ∧ (∀ fb, fb ≠ .all → trimChars s.data = s.data → s.data ≠ [] →
        hasSub (lowerChars s.data) (lowerChars (fieldOf fb t).data) = false →
        t ∉ filteredTracks .library none s fb tracks) := by
  refine ⟨?_, ?_, ?_⟩
  · intro s2 hb fb
    refine ⟨filteredTracks_library_no_search hb fb tracks, ?_⟩
    rw [filteredTracks_library_no_search hb fb tracks]
    exact mem_defaultSort.mpr hmem
  · intro htrim hT
    by_cases hs : s.data = []
    · have hb : trimChars s.data = [] := by rw [htrim, hs]
      constructor
      · rw [filteredTracks_library_no_search hb .all tracks]
        exact mem_defaultSort.mpr hmem
      · rw [filteredTracks_library_no_search hb .title tracks]
        exact mem_defaultSort.mpr hmem
    · have hne : lowerChars (trimChars s.data) ≠ [] := by
        rw [htrim]
        intro hc
        exact hs (List.map_eq_nil_iff.mp hc)
      constructor
      · rw [mem_filteredTracks_library hne, htrim]
        refine ⟨hmem, ?_⟩
        show hasSub (lowerChars s.data)
          (lowerChars (joinSpaceChars (searchFields .all t))) = true
        have hjoin : joinSpaceChars (searchFields .all t)
            = t.title.data ++ ' ' :: joinSpaceChars
                [t.artist.data, t.album.data, t.folder.data, t.filename.data] := rfl
        rw [hjoin]
        unfold lowerChars
        rw [List.map_append]
        exact hasSub_append_left _ hT
      · rw [mem_filteredTracks_library hne, htrim]
        exact ⟨hmem, hT⟩
  · intro fb hfb htrim hs hExc hin
    have hne : lowerChars (trimChars s.data) ≠ [] := by
      rw [htrim]
      intro hc
      exact hs (List.map_eq_nil_iff.mp hc)
    have := (mem_filteredTracks_library hne).mp hin
    rw [htrim, matchesTrack_single t hfb, hExc] at this
    exact Bool.false_ne_true this.2

/-- C7 witness: on the concrete library, the search `TLE` (case-insensitively a
substring of the title `Title x`) includes the track under `all` and `title`,
excludes it under `artist`, and a whitespace-only search leaves the list
unfiltered. -/
theorem c7_witness :
    exSumX ∈ filteredTracks .library none "TLE" .all [exSumX, exSumY]
    ∧ exSumX ∈ filteredTracks .library none "TLE" .title [exSumX, exSumY]
    ∧ exSumX ∉ filteredTracks .library none "TLE" .artist [exSumX, exSumY]
    ∧ filteredTracks .library none "  " .folder [exSumX, exSumY]
        = defaultSort [exSumX, exSumY] := by
  have h := c7_search_filter_semantics [exSumX, exSumY] exSumX "TLE" (by decide)
  refine ⟨?_, ?_, ?_, ?_⟩
  · exact (h.2.1 (by decide) (by decide)).1
  · exact (h.2.1 (by decide) (by decide)).2
  · exact h.2.2 .artist (by decide) (by decide) (by decide) (by decide)
  · exact (h.1 "  " (by decide) .folder).1

theorem buildTrackFromFile_sourceKey (now : Nat) (fid : String) (f : ImportFile)
    (o : BuildOptions) : (buildTrackFromFile now fid f o).sourceKey = o.sourceKey := rfl

theorem toSummary_sourceKey (r : TrackRecord) : (toSummary r).sourceKey = r.sourceKey := rfl

theorem toSummary_favorite (r : TrackRecord) : (toSummary r).favorite = r.favorite := rfl

theorem restoreFavoriteFlag_sourceKey (fk : List String) (t : TrackRecord) :
    (restoreFavoriteFlag fk t).sourceKey = t.sourceKey := by
  unfold restoreFavoriteFlag
  cases h : t.sourceKey with
  | none => simpa using h
  | some k =>
    dsimp only
    split
    · rfl
    · exact h

theorem restoreFavoriteFlag_forces {fk : List String} {t : TrackRecord} {k : String}
    (hsk : t.sourceKey = some k) (hne : k ≠ "") (hfk : k ∈ fk) :
    (restoreFavoriteFlag fk t).favorite = true := by
  unfold restoreFavoriteFlag
  rw [hsk]
  dsimp only
  rw [if_pos ⟨hne, hfk⟩]

theorem sessionBuild_sourceKey {now : Nat} {dk fk : List String}
    {ex : List (String × ExistingInfo)} :
    ∀ (files : List ImportFile) (seen : List String) (seed : Nat) {t : TrackRecord},
      t ∈ sessionBuild now dk fk ex files seen seed →
      ∃ kk, t.sourceKey = some kk ∧ kk ∉ dk := by
  intro files
  induction files with
  | nil =>
    intro seen seed t ht
    simp [sessionBuild] at ht
  | cons f rest ih =>
    intro seen seed t ht
    simp only [sessionBuild] at ht
    by_cases h1 : buildSourceKeyFromFile f ∈ seen
    · rw [if_pos h1] at ht
      exact ih seen seed ht
    · rw [if_neg h1] at ht
      by_cases h2 : buildSourceKeyFromFile f ∈ dk
      · rw [if_pos h2] at ht
        exact ih _ _ ht
      · rw [if_neg h2] at ht
        rcases List.mem_cons.mp ht with he | hmem
        · exact ⟨buildSourceKeyFromFile f, by rw [he, buildTrackFromFile_sourceKey], h2⟩
        · exact ih _ _ hmem

theorem importOpts_sourceKey {now : Nat} {dk fk : List String}
    {ex : List (String × ExistingInfo)} :
    ∀ (files : List ImportFile) (seen : List String) (seed : Nat) {t : TrackRecord},
      t ∈ importAudioFilesOpts now dk fk ex files seen seed →
      ∃ kk, t.sourceKey = some kk ∧ kk ∉ dk := by
  intro files
  induction files with
  | nil =>
    intro seen seed t ht
    simp [importAudioFilesOpts] at ht
  | cons f rest ih =>
    intro seen seed t ht
    simp only [importAudioFilesOpts] at ht
    by_cases h0 : f.isAudio = false
    · rw [if_pos h0] at ht
      exact ih seen seed ht
    · rw [if_neg h0] at ht
      by_cases h1 : buildSourceKeyFromFile f ∈ seen
      · rw [if_pos h1] at ht
        exact ih seen seed ht
      · rw [if_neg h1] at ht
        by_cases h2 : buildSourceKeyFromFile f ∈ dk
        · rw [if_pos h2] at ht
          exact ih _ _ ht
        · rw [if_neg h2] at ht
          cases hlk : lookupAssoc ex (buildSourceKeyFromFile f) with
          | some info =>
            rw [hlk] at ht
            rcases List.mem_cons.mp ht with he | hmem
            · exact ⟨buildSourceKeyFromFile f, by rw [he, buildTrackFromFile_sourceKey], h2⟩
            · exact ih _ _ hmem
          | none =>
            rw [hlk] at ht
            rcases List.mem_cons.mp ht with he | hmem
            · exact ⟨buildSourceKeyFromFile f, by rw [he, buildTrackFromFile_sourceKey], h2⟩
            · exact ih _ _ hmem

theorem session_import_no_deleted {now seed : Nat} {db : DbState} {st : AppState}
    {k : String} {files : List ImportFile} (hk : k ∈ getDeletedKeys db)
    (hne : files ≠ []) :
    ∀ t ∈ (handleImportSession now seed files st db).tracks, t.sourceKey ≠ some k := by
  intro t ht he
  have hie : files.isEmpty = false := by
    cases files with
    | nil => exact absurd rfl hne
    | cons a l => rfl
  simp only [handleImportSession, hie, Bool.false_eq_true, if_false] at ht
  obtain ⟨r, hr, hrt⟩ := List.mem_map.mp ht
  obtain ⟨kk, hkk, hkdk⟩ := sessionBuild_sourceKey files [] seed hr
  rw [← hrt, toSummary_sourceKey, hkk] at he
  cases he
  exact hkdk hk

theorem offline_import_no_deleted {now seed : Nat} {db : DbState} {st : AppState}
    {k : String} {files : List ImportFile} (hk : k ∈ getDeletedKeys db)
    (hno : ∀ r ∈ db.tracks, r.sourceKey ≠ some k) :
    ∀ s2 ∈ getAllTrackSummaries (handleImportOffline now seed files st db).2,
      s2.sourceKey ≠ some k := by
  intro s2 hs2 he
  simp only [handleImportOffline, getAllTrackSummaries] at hs2
  obtain ⟨r, hr, hrs⟩ := List.mem_map.mp hs2
  rw [← hrs, toSummary_sourceKey] at he
  rcases mem_upsertTracks hr with hold | hnew
  · exact hno r hold he
  · obtain ⟨r0, hr0, hr0r⟩ := List.mem_map.mp hnew
    obtain ⟨kk, hkk, hkdk⟩ := importOpts_sourceKey files [] seed hr0
    rw [← hr0r, restoreFavoriteFlag_sourceKey, hkk] at he
    cases he
    exact hkdk hk

theorem importOpts_single (now seed : Nat) (dk fk : List String)
    (ex : List (String × ExistingInfo)) (f : ImportFile)
    (hA : f.isAudio = true) (hk : buildSourceKeyFromFile f ∉ dk) :
    ∃ o : BuildOptions, o.sourceKey = some (buildSourceKeyFromFile f) ∧
      importAudioFilesOpts now dk fk ex [f] [] seed =
        [buildTrackFromFile now ("track-" ++ toString seed) f o] := by
  cases hlk : lookupAssoc ex (buildSourceKeyFromFile f) with
  | some info =>
    refine ⟨{ id := some info.id, addedAt := some info.addedAt
              favorite := some (decide (buildSourceKeyFromFile f ∈ fk) || info.favorite)
              source := some .imported, sourceKey := some (buildSourceKeyFromFile f) },
      rfl, ?_⟩
    simp [importAudioFilesOpts, hA, hk, hlk]
  | none =>
    refine ⟨{ favorite := some (decide (buildSourceKeyFromFile f ∈ fk))
              source := some .imported, sourceKey := some (buildSourceKeyFromFile f) },
      rfl, ?_⟩
    simp [importAudioFilesOpts, hA, hk, hlk]

theorem sessionBuild_single (now seed : Nat) (dk fk : List String)
    (ex : List (String × ExistingInfo)) (f : ImportFile)
    (hk : buildSourceKeyFromFile f ∉ dk) :
    ∃ o : BuildOptions, o.sourceKey = some (buildSourceKeyFromFile f) ∧
      sessionBuild now dk fk ex [f] [] seed =
        [buildTrackFromFile now ("track-" ++ toString seed) f o] := by
  refine ⟨{ source := some .session, sourceKey := some (buildSourceKeyFromFile f)
            favorite := some (decide (buildSourceKeyFromFile f ∈ fk) ||
              match lookupAssoc ex (buildSourceKeyFromFile f) with
              | some info => info.favorite
              | none => false) },
    rfl, ?_⟩
  simp [sessionBuild, hk]

theorem offline_import_single_succeeds (now seed : Nat) (f : ImportFile) (st : AppState)
    (db : DbState) (hA : f.isAudio = true)
    (hk : buildSourceKeyFromFile f ∉ getDeletedKeys db) :
    ∃ s2 ∈ getAllTrackSummaries (handleImportOffline now seed [f] st db).2,
      s2.sourceKey = some (buildSourceKeyFromFile f)
      ∧ (buildSourceKeyFromFile f ≠ "" → buildSourceKeyFromFile f ∈ getFavoriteKeys db →
          s2.favorite = true) := by
  obtain ⟨o, ho, heq⟩ := importOpts_single now seed (getDeletedKeys db) (getFavoriteKeys db)
    (existingMap (getAllTrackSummaries db)) f hA hk
  have hb := buildTrackFromFile_sourceKey now ("track-" ++ toString seed) f o
  set t0 := buildTrackFromFile now ("track-" ++ toString seed) f o with ht0
  set rt0 := restoreFavoriteFlag (getFavoriteKeys db) t0 with hrt0
  have hsk : rt0.sourceKey = some (buildSourceKeyFromFile f) := by
    rw [hrt0, restoreFavoriteFlag_sourceKey, hb, ho]
  refine ⟨toSummary rt0, ?_, ?_, ?_⟩
  · show toSummary rt0 ∈ getAllTrackSummaries (handleImportOffline now seed [f] st db).2
    simp only [handleImportOffline, heq, List.map_cons, List.map_nil]
    unfold getAllTrackSummaries
    refine List.mem_map.mpr ⟨rt0, ?_, rfl⟩
    show rt0 ∈ (upsertTracks [rt0] db).tracks
    unfold upsertTracks
    rw [if_neg (by simp)]
    show rt0 ∈ putRecord rt0 db.tracks
    exact self_mem_putRecord rt0 db.tracks
  · rw [toSummary_sourceKey, hsk]
  · intro hne hfk
    rw [toSummary_favorite, hrt0]
    exact restoreFavoriteFlag_forces (by rw [ht0, hb, ho]) hne hfk

theorem session_import_single_succeeds (now seed : Nat) (f : ImportFile) (st : AppState)
    (db : DbState) (hk : buildSourceKeyFromFile f ∉ getDeletedKeys db) :
    ∃ t ∈ (handleImportSession now seed [f] st db).tracks,
      t.sourceKey = some (buildSourceKeyFromFile f) := by
  obtain ⟨o, ho, heq⟩ := sessionBuild_single now seed (getDeletedKeys db) (getFavoriteKeys db)
    (existingMap (getAllTrackSummaries db)) f hk
  refine ⟨toSummary (buildTrackFromFile now ("track-" ++ toString seed) f o), ?_, ?_⟩
  · show _ ∈ (handleImportSession now seed [f] st db).tracks
    simp only [handleImportSession, List.isEmpty_cons, Bool.false_eq_true, if_false, heq,
      List.map_cons, List.map_nil]
    exact List.mem_singleton.mpr rfl
  · rw [toSummary_sourceKey, buildTrackFromFile_sourceKey, ho]

/-- C1: a file whose computed source key is in the deleted-keys set is skipped
by both session and offline import — no track with that key appears in the
resulting list — and after `restore(key)` removes the key from the deleted
set, a subsequent import of the same source key succeeds and is listed. -/
theorem c1_deleted_key_suppression_until_restore (now seed : Nat) (db : DbState)
    (st : AppState) (k : String) (files : List ImportFile) (f : ImportFile) :
    (k ∈ getDeletedKeys db → files ≠ [] →
      ∀ t ∈ (handleImportSession now seed files st db).tracks, t.sourceKey ≠ some k)
    ∧ (k ∈ getDeletedKeys db → (∀ r ∈ db.tracks, r.sourceKey ≠ some k) →
      ∀ s2 ∈ getAllTrackSummaries (handleImportOffline now seed files st db).2,
        s2.sourceKey ≠ some k)
    ∧ (k ≠ "" → k ∉ getDeletedKeys (restoreDeletedEntry k db))
    ∧ (buildSourceKeyFromFile f = k → k ≠ "" → f.isAudio = true →
      ∃ s2 ∈ getAllTrackSummaries
          (handleImportOffline now seed [f] st (restoreDeletedEntry k db)).2,
        s2.sourceKey = some k)
    ∧ (buildSourceKeyFromFile f = k → k ≠ "" →
      ∃ t ∈ (handleImportSession now seed [f] st (restoreDeletedEntry k db)).tracks,
        t.sourceKey = some k) := by
  refine ⟨?_, ?_, ?_, ?_, ?_⟩
  · intro hk hne
    exact session_import_no_deleted hk hne
  · intro hk hno
    exact offline_import_no_deleted hk hno
  · intro hk
    exact not_mem_getDeletedKeys_remove db hk
  · intro hbk hk hA
    have hnd : buildSourceKeyFromFile f ∉ getDeletedKeys (restoreDeletedEntry k db) := by
      rw [hbk]
      exact not_mem_getDeletedKeys_remove db hk
    obtain ⟨s2, hmem, hsk, _⟩ :=
      offline_import_single_succeeds now seed f st (restoreDeletedEntry k db) hA hnd
    exact ⟨s2, hmem, by rw [hsk, hbk]⟩
  · intro hbk hk
    have hnd : buildSourceKeyFromFile f ∉ getDeletedKeys (restoreDeletedEntry k db) := by
      rw [hbk]
      exact not_mem_getDeletedKeys_remove db hk
    obtain ⟨t, hmem, hsk⟩ :=
      session_import_single_succeeds now seed f st (restoreDeletedEntry k db) hnd
    exact ⟨t, hmem, by rw [hsk, hbk]⟩

/-- C1 witness: the concrete file `exFile` (key `file:Music|x.mp3`) is skipped
while the key is deleted and imported again after restore, in both modes. -/
theorem c1_witness :
    (∀ t ∈ (handleImportSession 100 0 [exFile] exState exDbDeleted).tracks,
      t.sourceKey ≠ some "file:Music|x.mp3")
    ∧ (∃ t ∈ (handleImportSession 100 0 [exFile] exState
          (restoreDeletedEntry "file:Music|x.mp3" exDbDeleted)).tracks,
        t.sourceKey = some "file:Music|x.mp3")
    ∧ "file:Music|x.mp3" ∉ getDeletedKeys (restoreDeletedEntry "file:Music|x.mp3" exDbDeleted) := by
  have h := c1_deleted_key_suppression_until_restore 100 0 exDbDeleted exState
    "file:Music|x.mp3" [exFile] exFile
  refine ⟨?_, ?_, ?_⟩
  · exact h.1 (by decide) (by decide)
  · exact h.2.2.2.2 (by decide) (by decide)
  · exact h.2.2.1 (by decide)

theorem find?_id_eq {l : List TrackSummary} {id : String} {t : TrackSummary}
    (h : l.find? (fun x => x.id == id) = some t) : t.id = id := by
  have := List.find?_some h
  simpa using this

theorem getTrackRecord_id_eq {db : DbState} {id : String} {r : TrackRecord}
    (h : getTrackRecord id db = some r) : r.id = id := by
  unfold getTrackRecord at h
  have := List.find?_some h
  simpa using this

/-- C2: `setFavorite(id, true)` persists the favorite bit through the Track
Repository record and the independent favorite-key store keyed by the track's
source key: the updated summary shows `favorite = true`, the key is in the
favorite store, and after clearing the track store and re-importing the same
source key the rebuilt track is favorite again. -/
theorem c2_setFavorite_roundtrip (now seed : Nat) (st : AppState) (db : DbState)
    (id k : String) (t : TrackSummary) (r : TrackRecord) (f : ImportFile)
    (hfind : st.tracks.find? (fun x => x.id == id) = some t)
    (hkey : t.sourceKey = some k) (hk : k ≠ "")
    (hmode : st.libraryMode = .offline)
    (hrec : getTrackRecord id db = some r) :
    (∃ u ∈ (setFavorite now id true st db).1.tracks, u.id = id ∧ u.favorite = true)
    ∧ k ∈ getFavoriteKeys (setFavorite now id true st db).2
    ∧ (buildSourceKeyFromFile f = k → f.isAudio = true → k ∉ getDeletedKeys db →
        ∃ s2 ∈ getAllTrackSummaries
            (handleImportOffline now seed [f] st
              (deleteAllTracks (setFavorite now id true st db).2)).2,
          s2.sourceKey = some k ∧ s2.favorite = true) := by
  have hdb1tracks : (setFavoriteKey now k true db).tracks = db.tracks :=
    setFavoriteKey_tracks now k true db
  have hfr : (setFavoriteKey now k true db).tracks.find? (fun x => x.id == id) = some r := by
    rw [hdb1tracks]
    unfold getTrackRecord at hrec
    exact hrec
  have hupd2 : (updateTrack id (fun rr => { rr with favorite := true })
      (setFavoriteKey now k true db)).2 = some (toSummary ({ r with favorite := true })) := by
    unfold updateTrack
    rw [hfr]
  have h1 : (setFavorite now id true st db).1.tracks = st.tracks.map
      (fun x => if x.id == id then toSummary ({ r with favorite := true }) else x) := by
    cases hu : updateTrack id (fun rr => { rr with favorite := true })
        (setFavoriteKey now k true db) with
    | mk db2 res =>
      rw [hu] at hupd2
      dsimp only at hupd2
      subst hupd2
      simp [setFavorite, hfind, hkey, hk, hmode, hu]
  have h2 : (setFavorite now id true st db).2 = (updateTrack id
      (fun rr => { rr with favorite := true }) (setFavoriteKey now k true db)).1 := by
    cases hu : updateTrack id (fun rr => { rr with favorite := true })
        (setFavoriteKey now k true db) with
    | mk db2 res =>
      rw [hu] at hupd2
      dsimp only at hupd2
      subst hupd2
      simp [setFavorite, hfind, hkey, hk, hmode, hu]
  have hfavlist : (setFavoriteKey now k true db).favorites
      = putFavorite { key := k, updatedAt := now } db.favorites := by
    unfold setFavoriteKey
    rw [if_neg hk, if_pos rfl]
  have hfavmem : k ∈ getFavoriteKeys (setFavorite now id true st db).2 := by
    rw [h2]
    show k ∈ ((updateTrack id (fun rr => { rr with favorite := true })
      (setFavoriteKey now k true db)).1.favorites).map (fun e => e.key)
    rw [updateTrack_favorites, hfavlist]
    exact List.mem_map.mpr
      ⟨{ key := k, updatedAt := now }, self_mem_putFavorite _ db.favorites, rfl⟩
  refine ⟨?_, ?_, ?_⟩
  · rw [h1]
    refine ⟨toSummary ({ r with favorite := true }), ?_, ?_, rfl⟩
    · refine List.mem_map.mpr ⟨t, List.mem_of_find?_eq_some hfind, ?_⟩
      rw [if_pos (by simpa using find?_id_eq hfind)]
    · show r.id = id
      exact getTrackRecord_id_eq hrec
  · exact hfavmem
  · intro hbk hA hnd
    have hdelc : getDeletedKeys (deleteAllTracks (setFavorite now id true st db).2)
        = getDeletedKeys db := by
      show ((setFavorite now id true st db).2.deleted).map (fun e => e.key)
        = db.deleted.map (fun e => e.key)
      rw [h2, updateTrack_deleted, setFavoriteKey_deleted]
    have hfavc : k ∈ getFavoriteKeys (deleteAllTracks (setFavorite now id true st db).2) := by
      show k ∈ ((setFavorite now id true st db).2.favorites).map (fun e => e.key)
      exact hfavmem
    have hnd2 : buildSourceKeyFromFile f
        ∉ getDeletedKeys (deleteAllTracks (setFavorite now id true st db).2) := by
      rw [hbk, hdelc]
      exact hnd
    obtain ⟨s2, hmem, hsk, hfv⟩ := offline_import_single_succeeds now seed f st
      (deleteAllTracks (setFavorite now id true st db).2) hA hnd2
    refine ⟨s2, hmem, by rw [hsk, hbk], ?_⟩
    refine hfv (by rw [hbk]; exact hk) ?_
    rw [hbk]
    exact hfavc

/-- C2 witness: the round trip on the concrete store — favorite `x`, see the
flag in the list and the key in the favorite store, clear the library, and
re-import `exFile` (same source key) to find the rebuilt track favorite. -/
theorem c2_witness :
    (∃ u ∈ (setFavorite 50 "x" true exState exDb).1.tracks, u.id = "x" ∧ u.favorite = true)
    ∧ "file:Music|x.mp3" ∈ getFavoriteKeys (setFavorite 50 "x" true exState exDb).2
    ∧ (∃ s2 ∈ getAllTrackSummaries
          (handleImportOffline 50 3 [exFile] exState
            (deleteAllTracks (setFavorite 50 "x" true exState exDb).2)).2,
        s2.sourceKey = some "file:Music|x.mp3" ∧ s2.favorite = true) := by
  have h := c2_setFavorite_roundtrip 50 3 exState exDb "x" "file:Music|x.mp3"
    exSumX (exRec "x" 1 5 false) exFile (by decide) (by decide) (by decide) (by decide)
    (by decide)
  exact ⟨h.1, h.2.1, h.2.2 (by decide) (by decide) (by decide)⟩

/-- C10: clearing the whole track store clears only the tracks collection — the
deleted-keys and favorite-keys collections are untouched — so deletion
suppression and favorite status keyed by source key still apply to imports run
after a full library clear. -/
theorem c10_deleteAllTracks_frame (now seed : Nat) (db : DbState) (st : AppState)
    (files : List ImportFile) (k : String) (f : ImportFile) :
    (deleteAllTracks db).tracks = []
    ∧ (deleteAllTracks db).deleted = db.deleted
    ∧ (deleteAllTracks db).favorites = db.favorites
    ∧ getDeletedKeys (deleteAllTracks db) = getDeletedKeys db
    ∧ getFavoriteKeys (deleteAllTracks db) = getFavoriteKeys db
    ∧ (k ∈ getDeletedKeys db → files ≠ [] →
        ∀ t ∈ (handleImportSession now seed files st (deleteAllTracks db)).tracks,
          t.sourceKey ≠ some k)
    ∧ (k ∈ getDeletedKeys db →
        ∀ s2 ∈ getAllTrackSummaries
            (handleImportOffline now seed files st (deleteAllTracks db)).2,
          s2.sourceKey ≠ some k)
    ∧ (buildSourceKeyFromFile f = k → f.isAudio = true → k ≠ "" →
        k ∉ getDeletedKeys db → k ∈ getFavoriteKeys db →
        ∃ s2 ∈ getAllTrackSummaries
            (handleImportOffline now seed [f] st (deleteAllTracks db)).2,
          s2.sourceKey = some k ∧ s2.favorite = true) := by
  refine ⟨rfl, rfl, rfl, rfl, rfl, ?_, ?_, ?_⟩
  · intro hk hne
    exact session_import_no_deleted hk hne
  · intro hk
    refine offline_import_no_deleted hk ?_
    intro r hr
    cases hr
  · intro hbk hA hk hnd hfk
    have hnd2 : buildSourceKeyFromFile f ∉ getDeletedKeys (deleteAllTracks db) := by
      rw [hbk]
      exact hnd
    obtain ⟨s2, hmem, hsk, hfv⟩ :=
      offline_import_single_succeeds now seed f st (deleteAllTracks db) hA hnd2
    refine ⟨s2, hmem, by rw [hsk, hbk], ?_⟩
    refine hfv (by rw [hbk]; exact hk) ?_
    rw [hbk]
    exact hfk

/-- C10 witness: the frame checked on a concrete store that has both a deleted
key and a favorite key; both survive the clear and steer a later import. -/
theorem c10_witness :
    getDeletedKeys (deleteAllTracks exDbDeleted) = ["file:Music|x.mp3"]
    ∧ (deleteAllTracks exDbDeleted).tracks = []
    ∧ (∀ t ∈ (handleImportSession 7 0 [exFile] exState (deleteAllTracks exDbDeleted)).tracks,
        t.sourceKey ≠ some "file:Music|x.mp3")
    ∧ (∃ s2 ∈ getAllTrackSummaries
          (handleImportOffline 7 0 [exFile] exState
            (deleteAllTracks (setFavoriteKey 1 "file:Music|x.mp3" true exDb))).2,
        s2.sourceKey = some "file:Music|x.mp3" ∧ s2.favorite = true) := by
  have h := c10_deleteAllTracks_frame 7 0 exDbDeleted exState [exFile] "file:Music|x.mp3" exFile
  have h2 := c10_deleteAllTracks_frame 7 0 (setFavoriteKey 1 "file:Music|x.mp3" true exDb)
    exState [exFile] "file:Music|x.mp3" exFile
  refine ⟨by decide, h.1, ?_, ?_⟩
  · exact h.2.2.2.2.2.1 (by decide) (by decide)
  · exact h2.2.2.2.2.2.2.2 (by decide) (by decide) (by decide) (by decide) (by decide)

end MusicApp
